import Mathlib

/-!
Shallow embedding of the js-chess-engine front-end app (`src/App.jsx`).

The external chess library (`js-chess-engine`) is a collaborator, not part of
the repository: it is modelled as an abstract `Engine` oracle over an opaque
live-game type `G`, exposing exactly the operations the UI calls
(`new Game(snapshot?)`, `exportJson`, `move`, `moves`, `ai`).

React component state becomes an explicit `AppState` record; each event
handler becomes a pure state transition.  The asynchronous `setTimeout` body
of `doAiMove` is split into a synchronous scheduling step (`doAiMoveStart`,
which raises the in-flight flag and records the captured arguments) and a
completion step (`doAiMoveComplete`, the timeout callback).
-/

namespace ChessFeApp

/-- Board snapshot as exported by the engine's `exportJson`: whose turn it is,
the piece on each occupied square (association list from square name such as
`"E2"` to piece letter such as `"K"` or `"p"`), and check / checkmate flags. -/
structure Config where
  turn : String
  pieces : List (String × String)
  check : Bool
  checkMate : Bool
deriving DecidableEq, Repr

/-- Lookup `config.pieces[sq]` (JS object indexing; `none` = `undefined`). -/
def piecesGet (c : Config) (sq : String) : Option String :=
  (c.pieces.find? (fun q => q.1 == sq)).map (fun q => q.2)

/-- A last-move highlight `{ from, to }`. -/
structure LastMove where
  lmFrom : String
  lmTo : String
deriving DecidableEq, Repr

/-- One entry of the history log: `{ label, snapshot, lastMove }`. -/
structure HistoryEntry where
  label : String
  snapshot : Config
  lastMove : Option LastMove
deriving DecidableEq, Repr

/-- The custom AI parameter bundle held in the `custom` state hook. -/
structure Custom where
  depth : Nat
  extended : Nat
  quiescence : Nat
  check : Bool
  ttSizeMB : Nat
  randomness : Nat
deriving DecidableEq, Repr

/-- Constant `CUSTOM_DEFAULTS = { depth: 4, extended: 3, quiescence: 4, check: true,
ttSizeMB: 20, randomness: 0 }`. -/
def CUSTOM_DEFAULTS : Custom :=
  { depth := 4
    extended := 3
    quiescence := 4
    check := true
    ttSizeMB := 20
    randomness := 0 }

/-- The options object passed to `game.ai(...)`: either `{ level }` or the
custom `{ depth: {...}, ttSizeMB, randomness }` shape. -/
inductive AiOpts where
  | levelOpts (level : Nat)
  | customOpts (base extended quiescence : Nat) (check : Bool)
      (ttSizeMB randomness : Nat)
deriving DecidableEq, Repr

/-- Function `getAiOpts(mode, level, cust)` from `App.jsx`. -/
def getAiOpts (mode : String) (level : Nat) (cust : Custom) : AiOpts :=
  if mode == "level" then .levelOpts level
  else .customOpts cust.depth cust.extended cust.quiescence cust.check
    cust.ttSizeMB cust.randomness

/-- Function `moveLabel(from, to)`, the template `${from}-${to}`. -/
def moveLabel (f t : String) : String := f ++ "-" ++ t

/-- Model of `toUpperCase()`, character-wise (structural recursion, so that
it evaluates on closed inputs). -/
def strToUpper (s : String) : String := String.mk (s.toList.map Char.toUpper)

/-- Function `isWhite(piece)` = `piece === piece.toUpperCase()`. -/
def isWhite (piece : String) : Bool := piece == strToUpper piece

/-- Result of `game.ai(opts)`: the move made (`result.move`, a single-entry
object destructured as `[from, to]`), the resulting board snapshot
(`result.board`), and the live game after the in-place mutation. -/
structure AiResult (G : Type) where
  mvFrom : String
  mvTo : String
  board : Config
  g : G
deriving DecidableEq, Repr

/-- Abstract Game Facade contract of the external `js-chess-engine` library.
`newGame none` is `new Game()` (canonical start position); `newGame (some c)`
is `new Game(snapshot)`.  `moves g sq` is the object returned by
`game.moves(sq)`, modelled as an association list.  Mutation of the live game
object is modelled by returning the post-mutation game value. -/
structure Engine (G : Type) where
  newGame : Option Config → G
  exportJson : G → Config
  move : G → String → String → G
  moves : G → String → List (String × List String)
  ai : G → AiOpts → AiResult G

variable {G : Type}

/-- Function `getMovesForSquare(game, sq)` = `game.moves(sq)[sq] || []`. -/
def getMovesForSquare (E : Engine G) (g : G) (sq : String) : List String :=
  match (E.moves g sq).find? (fun q => q.1 == sq) with
  | some q => q.2
  | none => []

/-- The arguments captured by the `setTimeout` closure inside `doAiMove`. -/
structure PendingAi (G : Type) where
  g : G
  mode : String
  level : Nat
  cust : Custom
  prevHistory : List HistoryEntry
deriving DecidableEq

/-- The component state of `App`: every `useState` hook, plus `pending`,
which models the scheduled-but-not-yet-run `setTimeout` callback of
`doAiMove` (absent in the quiescent states). -/
structure AppState (G : Type) where
  game : G
  config : Config
  selected : Option String
  validMoves : List String
  status : String
  aiThinking : Bool
  lastMove : Option LastMove
  configMode : String
  aiLevel : Nat
  custom : Custom
  history : List HistoryEntry
  currentPly : Nat
  pending : Option (PendingAi G)
deriving DecidableEq

/-- The synchronous part of `doAiMove(g, mode, level, cust, prevHistory)`:
`setAiThinking(true)` and scheduling of the timeout callback. -/
def doAiMoveStart (p : PendingAi G) (s : AppState G) : AppState G :=
  { s with aiThinking := true, pending := some p }

/-- The `setTimeout` callback body of `doAiMove`: run the engine search,
record the AI's move and board, clear the in-flight flag, append the new
history entry to the captured `prevHistory`, advance the ply pointer, and set
the status from the returned snapshot's flags. -/
def doAiMoveComplete (E : Engine G) (s : AppState G) : AppState G :=
  match s.pending with
  | none => s
  | some p =>
    let result := E.ai p.g (getAiOpts p.mode p.level p.cust)
    let lm : LastMove := { lmFrom := result.mvFrom, lmTo := result.mvTo }
    let cfg := result.board
    let newHistory := p.prevHistory ++
      [{ label := moveLabel result.mvFrom result.mvTo
         snapshot := cfg
         lastMove := some lm }]
    { s with
      game := result.g
      lastMove := some lm
      config := cfg
      aiThinking := false
      pending := none
      history := newHistory
      currentPly := newHistory.length - 1
      status :=
        if cfg.checkMate then "Checkmate! AI wins!"
        else if cfg.check then "Check! Your turn (White)"
        else "Your turn (White)" }

/-- Indexing into `CASTLE_ROOK_MAP = { H1: 'G1', A1: 'C1' }`. -/
def CASTLE_ROOK_MAP (sq : String) : Option String :=
  if sq == "H1" then some "G1" else if sq == "A1" then some "C1" else none

/-- Handler `handleSquareClick(sq)` from `App.jsx` (lines 91-138). -/
def handleSquareClick (E : Engine G) (sq : String) (s : AppState G) :
    AppState G :=
  if s.aiThinking || s.config.turn != "white" || s.config.checkMate then s
  else
    match s.selected with
    | some selected =>
      let isKing := piecesGet s.config selected == some "K"
      let castleDest := if isKing then CASTLE_ROOK_MAP sq else none
      let targetSq :=
        match castleDest with
        | some d => if s.validMoves.contains d then d else sq
        | none => sq
      if s.validMoves.contains targetSq then
        let g := E.move s.game selected targetSq
        let lm : LastMove := { lmFrom := selected, lmTo := targetSq }
        let cfg := E.exportJson g
        let base := s.history.take (s.currentPly + 1)
        let afterWhite := base ++
          [{ label := moveLabel selected targetSq
             snapshot := cfg
             lastMove := some lm }]
        let s1 : AppState G :=
          { s with
            game := g
            lastMove := some lm
            selected := none
            validMoves := []
            config := cfg
            history := afterWhite
            currentPly := afterWhite.length - 1 }
        if cfg.checkMate then
          { s1 with status := "Checkmate! You win!" }
        else
          doAiMoveStart
            { g := g
              mode := s.configMode
              level := s.aiLevel
              cust := s.custom
              prevHistory := afterWhite }
            { s1 with status := "AI thinking..." }
      else
        match piecesGet s.config sq with
        | some piece =>
          if isWhite piece then
            { s with
              selected := some sq
              validMoves := getMovesForSquare E s.game sq }
          else
            { s with selected := none, validMoves := [] }
        | none => { s with selected := none, validMoves := [] }
    | none =>
      match piecesGet s.config sq with
      | some piece =>
        if isWhite piece then
          { s with
            selected := some sq
            validMoves := getMovesForSquare E s.game sq }
        else s
      | none => s

/-- The effective-destination resolution of `handleSquareClick` (lines
95-98), as a standalone function: the clicked square, unless the selected
piece is the white king and the clicked square maps through
`CASTLE_ROOK_MAP` to a destination that is itself legal. -/
def effectiveTarget (c : Config) (vm : List String) (sel sq : String) :
    String :=
  match if piecesGet c sel == some "K" then CASTLE_ROOK_MAP sq else none with
  | some d => if vm.contains d then d else sq
  | none => sq

/-- The condition under which `handleSquareClick` applies a move (lines
92-100): the guard passes, an origin square is selected, and the effective
destination is among the legal destinations. -/
def clickApplies (s : AppState G) (sq : String) : Prop :=
  (s.aiThinking || s.config.turn != "white" || s.config.checkMate) = false ∧
  ∃ sel, s.selected = some sel ∧
    s.validMoves.contains
      (effectiveTarget s.config s.validMoves sel sq) = true

/-- Dispatch a sequence of square clicks, first to last. -/
def applyClicks (E : Engine G) : List String → AppState G → AppState G
  | [], s => s
  | q :: qs, s => applyClicks E qs (handleSquareClick E q s)

/-- Holds when no click of the sequence applies a move (each click is a
selection, re-selection, deselection, or ignored click). -/
def nonApplyingClicks (E : Engine G) : List String → AppState G → Prop
  | [], _ => True
  | q :: qs, s =>
    ¬clickApplies s q ∧ nonApplyingClicks E qs (handleSquareClick E q s)

/-- Handler `rollbackTo(ply)` from `App.jsx` (lines 140-164).  The checkmate status is
built from the template literal `` `Checkmate! ${winner} wins!` `` with
`winner = cfg.turn === 'white' ? 'AI' : 'You'`. -/
def rollbackTo (E : Engine G) (ply : Nat) (s : AppState G) : AppState G :=
  if s.aiThinking then s
  else
    match s.history[ply]? with
    | none => s
    | some entry =>
      let g := E.newGame (some entry.snapshot)
      let s1 : AppState G :=
        { s with
          game := g
          config := entry.snapshot
          lastMove := entry.lastMove
          selected := none
          validMoves := []
          currentPly := ply }
      let cfg := entry.snapshot
      if cfg.checkMate then
        let winner := if cfg.turn == "white" then "AI" else "You"
        { s1 with status := "Checkmate! " ++ winner ++ " wins!" }
      else if cfg.turn == "black" then
        doAiMoveStart
          { g := g
            mode := s.configMode
            level := s.aiLevel
            cust := s.custom
            prevHistory := s.history.take (ply + 1) }
          { s1 with status := "AI thinking..." }
      else
        { s1 with status :=
            if cfg.check then "Check! Your turn (White)"
            else "Your turn (White)" }

/-- The canonical start snapshot `new Game().exportJson()`. -/
def startConfig (E : Engine G) : Config := E.exportJson (E.newGame none)

/-- The single start history entry `{ label: 'Start', snapshot, lastMove: null }`. -/
def startEntry (E : Engine G) : HistoryEntry :=
  { label := "Start", snapshot := startConfig E, lastMove := none }

/-- Handler `resetGame()` from `App.jsx` (lines 166-178). -/
def resetGame (E : Engine G) (s : AppState G) : AppState G :=
  let g := E.newGame none
  let cfg := E.exportJson g
  { s with
    game := g
    config := cfg
    selected := none
    validMoves := []
    status := "Your turn (White)"
    aiThinking := false
    lastMove := none
    history := [{ label := "Start", snapshot := cfg, lastMove := none }]
    currentPly := 0 }

/-- The initial component state (the `useState` initialisers). -/
def initState (E : Engine G) : AppState G :=
  { game := E.newGame none
    config := startConfig E
    selected := none
    validMoves := []
    status := "Your turn (White)"
    aiThinking := false
    lastMove := none
    configMode := "level"
    aiLevel := 3
    custom := CUSTOM_DEFAULTS
    history := [startEntry E]
    currentPly := 0
    pending := none }

/-- The discrete UI events that drive the state machine.  The configuration
widgets and the New Game button are `disabled={aiThinking}`, which the
corresponding steps reflect with an explicit guard. -/
inductive Ev where
  | click (sq : String)
  | aiDone
  | rollback (ply : Nat)
  | reset
  | setMode (m : String)
  | setLevel (l : Nat)
  | setCustom (c : Custom)

/-- One event dispatch. -/
def step (E : Engine G) (e : Ev) (s : AppState G) : AppState G :=
  match e with
  | .click sq => handleSquareClick E sq s
  | .aiDone => doAiMoveComplete E s
  | .rollback ply => rollbackTo E ply s
  | .reset => if s.aiThinking then s else resetGame E s
  | .setMode m => if s.aiThinking then s else { s with configMode := m }
  | .setLevel l => if s.aiThinking then s else { s with aiLevel := l }
  | .setCustom c => if s.aiThinking then s else { s with custom := c }

/-- States reachable from the initial state by event dispatches. -/
inductive Reach (E : Engine G) : AppState G → Prop where
  | init : Reach E (initState E)
  | step (e : Ev) {s : AppState G} : Reach E s → Reach E (step E e s)

/-! ### A tiny concrete facade instantiation, for evaluating the transition
functions on closed inputs. -/

/-- A fixed snapshot the toy facade returns from `exportJson`. -/
def toyBoard : Config :=
  { turn := "black", pieces := [("E4", "P"), ("E8", "k")]
    check := false, checkMate := false }

/-- A trivial concrete engine over a unit live-game type. -/
def toyEngine : Engine Unit :=
  { newGame := fun _ => ()
    exportJson := fun _ => toyBoard
    move := fun _ _ _ => ()
    moves := fun _ sq => [(sq, ["E3", "E4"])]
    ai := fun _ _ =>
      { mvFrom := "E7", mvTo := "E5"
        board := { turn := "white", pieces := [], check := false
                   checkMate := false }
        g := () } }

/-- Build a concrete `AppState` over the toy engine, fixing the fields the
transition functions never branch on. -/
def mkState (cfg : Config) (sel : Option String) (vm : List String)
    (hist : List HistoryEntry) (ply : Nat) (pend : Option (PendingAi Unit))
    (ait : Bool) : AppState Unit :=
  { game := (), config := cfg, selected := sel, validMoves := vm
    status := "Your turn (White)", aiThinking := ait, lastMove := none
    configMode := "level", aiLevel := 3, custom := CUSTOM_DEFAULTS
    history := hist, currentPly := ply, pending := pend }

/-- A white-to-move snapshot with a single white pawn on E2. -/
def cfgPawn : Config :=
  { turn := "white", pieces := [("E2", "P")], check := false
    checkMate := false }

/-- A white-to-move snapshot with the white king on E1 and H1 empty. -/
def cfgKing : Config :=
  { turn := "white", pieces := [("E1", "K")], check := false
    checkMate := false }

/-- A history entry whose snapshot is checkmated with White to move. -/
def mateEntry : HistoryEntry :=
  { label := "D8-H4"
    snapshot := { turn := "white", pieces := [], check := true
                  checkMate := true }
    lastMove := none }

/-- A state holding a two-entry history whose second entry is `mateEntry`. -/
def stateMateHist : AppState Unit :=
  mkState cfgPawn none [] [startEntry toyEngine, mateEntry] 1 none false

/-- A state with the pawn's square selected and its destinations computed. -/
def stateSel : AppState Unit :=
  mkState cfgPawn (some "E2") ["E3", "E4"] [startEntry toyEngine] 0 none false

/-- A state with nothing selected on the pawn board. -/
def stateNoSel : AppState Unit :=
  mkState cfgPawn none [] [startEntry toyEngine] 0 none false

/-- A state with the king selected, its castle destination G1 legal, and the
rook square H1 empty. -/
def stateKing : AppState Unit :=
  mkState cfgKing (some "E1") ["D1", "G1"] [startEntry toyEngine] 0 none false

/-- A history entry whose snapshot has Black to move and no terminal flag. -/
def blackEntry : HistoryEntry :=
  { label := "E2-E4"
    snapshot := { turn := "black", pieces := [], check := false
                  checkMate := false }
    lastMove := none }

/-- A quiescent state with a two-entry history ending in `blackEntry`. -/
def stateTwo : AppState Unit :=
  mkState cfgPawn none [] [startEntry toyEngine, blackEntry] 1 none false

/-- A history entry whose snapshot is `cfgPawn` (White to move, pawn on E2,
no terminal flag). -/
def whiteEntry : HistoryEntry :=
  { label := "E7-E5", snapshot := cfgPawn, lastMove := none }

/-- A quiescent state with a three-entry history whose middle entry has
White to move, so that rolling back to ply 1 hands the move to the human. -/
def stateW2 : AppState Unit :=
  mkState toyBoard none [] [startEntry toyEngine, whiteEntry, blackEntry] 2
    none false

/-- A captured AI callback over the start history. -/
def pendStart : PendingAi Unit :=
  { g := (), mode := "level", level := 3, cust := CUSTOM_DEFAULTS
    prevHistory := [startEntry toyEngine] }

/-- A state in which `pendStart` is scheduled and the in-flight flag is up. -/
def statePend : AppState Unit :=
  mkState toyBoard none [] [startEntry toyEngine] 0 (some pendStart) true

/-- The inductive invariant of the state machine: the history starts with the
canonical start entry, a scheduled AI callback captures a history prefix that
also starts with it and coincides with a raised in-flight flag, and an empty
selection comes with an empty legal-destination set. -/
def StateInv (E : Engine G) (s : AppState G) : Prop :=
  s.history[0]? = some (startEntry E) ∧
  (∀ q, s.pending = some q →
    q.prevHistory[0]? = some (startEntry E) ∧ s.aiThinking = true) ∧
  (s.selected = none → s.validMoves = [])

/-! ### Helper lemmas -/

theorem take_succ_get_zero {α : Type} (l : List α) (n : Nat) :
    (l.take (n + 1))[0]? = l[0]? := by
  cases l <;> simp

theorem append_get_zero {α : Type} {l m : List α} {a : α}
    (h : l[0]? = some a) : (l ++ m)[0]? = some a := by
  cases l <;> simp_all

/-- When `clickApplies` holds, `handleSquareClick` truncates the history at
the current pointer, appends exactly one entry, and advances the pointer to
the last index. -/
theorem handleSquareClick_applies (E : Engine G) (sq : String)
    (s : AppState G) (h : clickApplies s sq) :
    (∃ e, (handleSquareClick E sq s).history =
        s.history.take (s.currentPly + 1) ++ [e]) ∧
      (handleSquareClick E sq s).currentPly =
        (handleSquareClick E sq s).history.length - 1 := by
  obtain ⟨hg, sel, hsel, happ⟩ := h
  simp only [effectiveTarget] at happ
  simp only [handleSquareClick, hsel]
  rw [if_neg (by simp [hg]), if_pos happ]
  repeat' split
  all_goals exact ⟨⟨_, rfl⟩, rfl⟩

/-- Running `doAiMoveComplete` with a scheduled callback appends one entry to the
captured history prefix and advances the pointer to the last index. -/
theorem doAiMoveComplete_history (E : Engine G) (s : AppState G)
    (q : PendingAi G) (hq : s.pending = some q) :
    (∃ e, (doAiMoveComplete E s).history = q.prevHistory ++ [e]) ∧
      (doAiMoveComplete E s).currentPly =
        (doAiMoveComplete E s).history.length - 1 := by
  simp only [doAiMoveComplete, hq]
  exact ⟨⟨_, rfl⟩, trivial⟩

/-! ### Claim theorems -/

/-- C1.  Immediately after any move-applying operation — a human move
application in `handleSquareClick` (the `clickApplies` condition), or the
completion of a scheduled AI reply in `doAiMove` — the current ply pointer
equals `length(history) - 1`. -/
theorem currentPly_eq_history_length_sub_one (E : Engine G) (s : AppState G)
    (sq : String) :
    (clickApplies s sq →
      (handleSquareClick E sq s).currentPly =
        (handleSquareClick E sq s).history.length - 1) ∧
    (∀ q, s.pending = some q →
      (doAiMoveComplete E s).currentPly =
        (doAiMoveComplete E s).history.length - 1) := by
  constructor
  · intro h
    exact (handleSquareClick_applies E sq s h).2
  · intro q hq
    exact (doAiMoveComplete_history E s q hq).2

/-- Witness for C1: a concrete human move application and a concrete AI
completion, both reaching a state whose pointer is the last history index. -/
theorem currentPly_eq_history_length_sub_one_witness :
    ((handleSquareClick toyEngine "E4" stateSel).currentPly =
      (handleSquareClick toyEngine "E4" stateSel).history.length - 1) ∧
    ((doAiMoveComplete toyEngine statePend).currentPly =
      (doAiMoveComplete toyEngine statePend).history.length - 1) :=
  ⟨(currentPly_eq_history_length_sub_one toyEngine stateSel "E4").1
      ⟨rfl, "E2", rfl, by decide⟩,
   (currentPly_eq_history_length_sub_one toyEngine statePend "E4").2
      pendStart rfl⟩

/-- C3.  The handler `handleSquareClick` is a complete no-op (the whole state, hence the
live game, selection, history, pointer and status, is unchanged) whenever the
AI is in flight, it is not White's turn, or the game is checkmated. -/
theorem attemptMove_noop_of_guard (E : Engine G) (sq : String)
    (s : AppState G)
    (h : s.aiThinking = true ∨ s.config.turn ≠ "white" ∨
      s.config.checkMate = true) :
    handleSquareClick E sq s = s := by
  have hb : (s.aiThinking || s.config.turn != "white" ||
      s.config.checkMate) = true := by
    rcases h with h | h | h
    · simp [h]
    · simp [h, bne_iff_ne]
    · simp [h]
  simp [handleSquareClick, hb]

/-- Witness for C3: clicking while the AI is in flight changes nothing. -/
theorem attemptMove_noop_of_guard_witness :
    (mkState cfgPawn none [] [startEntry toyEngine] 0 none true).aiThinking
        = true ∧
    handleSquareClick toyEngine "E2"
        (mkState cfgPawn none [] [startEntry toyEngine] 0 none true) =
      mkState cfgPawn none [] [startEntry toyEngine] 0 none true :=
  ⟨rfl, attemptMove_noop_of_guard toyEngine "E2" _ (Or.inl (by decide))⟩

/-- C8.  The handler `rollbackTo` is a complete no-op — the whole state is unchanged, and
being a total function it raises no error — whenever the AI is in flight or
no history entry exists at the requested index. -/
theorem rollback_out_of_range_noop (E : Engine G) (ply : Nat)
    (s : AppState G)
    (h : s.aiThinking = true ∨ s.history[ply]? = none) :
    rollbackTo E ply s = s := by
  rcases h with h | h
  · simp [rollbackTo, h]
  · cases ha : s.aiThinking
    · simp [rollbackTo, ha, h]
    · simp [rollbackTo, ha]

/-- Witness for C8: rolling back to index 5 of a one-entry history changes
nothing. -/
theorem rollback_out_of_range_noop_witness :
    (mkState cfgPawn none [] [startEntry toyEngine] 0 none false).history[5]?
        = none ∧
    rollbackTo toyEngine 5
        (mkState cfgPawn none [] [startEntry toyEngine] 0 none false) =
      mkState cfgPawn none [] [startEntry toyEngine] 0 none false :=
  ⟨rfl, rollback_out_of_range_noop toyEngine 5 _ (Or.inr (by decide))⟩

/-- C7.  Rolling back to a ply whose stored snapshot is checkmated announces
as winner the side not to move in that snapshot: White (human) to move means
the engine is the winner, Black (engine) to move means the human is (the
status string is built from the `Checkmate! ${winner} wins!` template). -/
theorem rollback_checkmate_winner (E : Engine G) (s : AppState G) (ply : Nat)
    (entry : HistoryEntry) (hai : s.aiThinking = false)
    (hentry : s.history[ply]? = some entry)
    (hcm : entry.snapshot.checkMate = true) :
    (entry.snapshot.turn = "white" →
      (rollbackTo E ply s).status = "Checkmate! AI wins!") ∧
    (entry.snapshot.turn = "black" →
      (rollbackTo E ply s).status = "Checkmate! You wins!") := by
  constructor <;> intro ht <;>
    simp [rollbackTo, hai, hentry, hcm, ht]

/-- Witness for C7: rolling back to a checkmated snapshot with White to move
announces the engine as winner. -/
theorem rollback_checkmate_winner_witness :
    stateMateHist.history[1]? = some mateEntry ∧
    (rollbackTo toyEngine 1 stateMateHist).status = "Checkmate! AI wins!" :=
  ⟨rfl, (rollback_checkmate_winner toyEngine stateMateHist 1 mateEntry rfl rfl
    rfl).1 rfl⟩

/-- C4.  With an origin square selected, if the selected piece is the white
king, the clicked square is a castle rook square (H1 or A1), and the castle's
king-destination square is among the legal destinations, the applied move
goes to that king-destination square; in every other case the clicked square
is used verbatim as the effective destination. -/
theorem castle_redirect_effective_destination (E : Engine G) (s : AppState G)
    (sel sq d : String) (hai : s.aiThinking = false)
    (hturn : s.config.turn = "white") (hcm : s.config.checkMate = false)
    (hsel : s.selected = some sel) :
    (piecesGet s.config sel = some "K" → CASTLE_ROOK_MAP sq = some d →
      s.validMoves.contains d = true →
      (handleSquareClick E sq s).lastMove =
        some { lmFrom := sel, lmTo := d }) ∧
    (¬(piecesGet s.config sel = some "K" ∧
        ∃ e, CASTLE_ROOK_MAP sq = some e ∧ s.validMoves.contains e = true) →
      s.validMoves.contains sq = true →
      (handleSquareClick E sq s).lastMove =
        some { lmFrom := sel, lmTo := sq }) := by
  constructor
  · intro hk hcr hd
    simp only [handleSquareClick, hsel, hk, hcr]
    repeat' split
    all_goals first | rfl | simp_all [doAiMoveStart]
  · intro hother hsq
    by_cases hk : piecesGet s.config sel = some "K"
    · rcases hcr : CASTLE_ROOK_MAP sq with _ | e
      · simp only [handleSquareClick, hsel, hk, hcr]
        repeat' split
        all_goals first | rfl | simp_all [doAiMoveStart]
      · have he : s.validMoves.contains e = false := by
          cases hce : s.validMoves.contains e
          · rfl
          · exact absurd ⟨hk, e, hcr, hce⟩ hother
        simp only [handleSquareClick, hsel, hk, hcr]
        repeat' split
        all_goals first | rfl | simp_all [doAiMoveStart]
    · have hk' : (piecesGet s.config sel == some "K") = false := by
        simpa using hk
      simp only [handleSquareClick, hsel, hk']
      repeat' split
      all_goals first | rfl | simp_all [doAiMoveStart]

/-- Witness for C4: clicking H1 with the king selected and G1 legal castles
to G1; clicking E4 with the pawn selected moves to E4 verbatim. -/
theorem castle_redirect_effective_destination_witness :
    (handleSquareClick toyEngine "H1" stateKing).lastMove =
        some { lmFrom := "E1", lmTo := "G1" } ∧
    (handleSquareClick toyEngine "E4" stateSel).lastMove =
        some { lmFrom := "E2", lmTo := "E4" } :=
  ⟨(castle_redirect_effective_destination toyEngine stateKing "E1" "H1" "G1"
      rfl rfl rfl rfl).1 rfl rfl rfl,
   (castle_redirect_effective_destination toyEngine stateSel "E2" "E4" "X"
      rfl rfl rfl rfl).2
      (fun h => by simp [CASTLE_ROOK_MAP] at h) rfl⟩

/-- C10.  With the white king selected, clicking H1 while G1 is a legal
destination applies king-to-G1, and clicking A1 while C1 is legal applies
king-to-C1 — based only on the clicked square's name and the membership
test, with no hypothesis about what occupies the clicked square. -/
theorem castle_redirect_regardless_of_occupancy (E : Engine G)
    (s : AppState G) (sel : String) (hai : s.aiThinking = false)
    (hturn : s.config.turn = "white") (hcm : s.config.checkMate = false)
    (hsel : s.selected = some sel)
    (hk : piecesGet s.config sel = some "K") :
    (s.validMoves.contains "G1" = true →
      (handleSquareClick E "H1" s).lastMove =
        some { lmFrom := sel, lmTo := "G1" }) ∧
    (s.validMoves.contains "C1" = true →
      (handleSquareClick E "A1" s).lastMove =
        some { lmFrom := sel, lmTo := "C1" }) := by
  constructor <;> intro hd <;>
  · simp only [handleSquareClick, hsel, hk, CASTLE_ROOK_MAP]
    repeat' split
    all_goals first | rfl | simp_all [doAiMoveStart]

/-- Witness for C10: with H1 empty, clicking H1 still castles the king to
G1. -/
theorem castle_redirect_regardless_of_occupancy_witness :
    piecesGet stateKing.config "H1" = none ∧
    (handleSquareClick toyEngine "H1" stateKing).lastMove =
      some { lmFrom := "E1", lmTo := "G1" } :=
  ⟨rfl, (castle_redirect_regardless_of_occupancy toyEngine stateKing "E1"
    rfl rfl rfl rfl rfl).1 rfl⟩

/-- C5 counterexample.  Clicking the already-selected square when it is not
among its own legal destinations does NOT deselect it: in `stateSel` the pawn
square E2 is selected, E2 is not a legal destination, yet after clicking E2
the selection is still E2 (the `piece && isWhite(piece)` branch re-selects
the square), not empty as the claim states. -/
theorem click_selected_square_counterexample :
    stateSel.selected = some "E2" ∧
    stateSel.validMoves.contains "E2" = false ∧
    (handleSquareClick toyEngine "E2" stateSel).selected = some "E2" ∧
    ¬(handleSquareClick toyEngine "E2" stateSel).selected = none := by
  exact ⟨rfl, rfl, rfl, by decide⟩

/-- C5 amended.  Clicking the already-selected square when it is not among
its own legal destinations (and no castle redirect fires) re-selects it: the
selection stays on that square and its legal destinations are recomputed.
Clicking an empty square while nothing is selected changes nothing. -/
theorem click_selected_square_reselects (E : Engine G) (s : AppState G)
    (sq sel piece : String) :
    (s.aiThinking = false → s.config.turn = "white" →
      s.config.checkMate = false → s.selected = some sel →
      piecesGet s.config sel = some piece → isWhite piece = true →
      s.validMoves.contains sel = false →
      (piecesGet s.config sel = some "K" →
        ∀ d, CASTLE_ROOK_MAP sel = some d →
          s.validMoves.contains d = false) →
      (handleSquareClick E sel s).selected = some sel ∧
      (handleSquareClick E sel s).validMoves =
        getMovesForSquare E s.game sel) ∧
    (s.selected = none → piecesGet s.config sq = none →
      handleSquareClick E sq s = s) := by
  constructor
  · intro hai hturn hcm hsel hpiece hw hnot hnored
    by_cases hk : piecesGet s.config sel = some "K"
    · rcases hcr : CASTLE_ROOK_MAP sel with _ | e
      · simp only [handleSquareClick, hsel, hk, hcr, hpiece]
        repeat' split
        all_goals first | exact ⟨rfl, rfl⟩ | simp_all
      · have he := hnored hk e hcr
        simp only [handleSquareClick, hsel, hk, hcr, hpiece]
        repeat' split
        all_goals first | exact ⟨rfl, rfl⟩ | simp_all
    · have hk' : (piecesGet s.config sel == some "K") = false := by
        simpa using hk
      simp only [handleSquareClick, hsel, hk', hpiece]
      repeat' split
      all_goals first | exact ⟨rfl, rfl⟩ | simp_all
  · intro hsel hpc
    by_cases hg : (s.aiThinking || s.config.turn != "white" ||
        s.config.checkMate) = true
    · simp [handleSquareClick, hg]
    · simp only [handleSquareClick, hsel, hpc]
      simp [Bool.not_eq_true] at hg
      simp [hg]

/-- Witness for C5 amended: re-clicking the selected pawn square keeps it
selected with recomputed destinations; clicking empty A5 with no selection
changes nothing. -/
theorem click_selected_square_reselects_witness :
    ((handleSquareClick toyEngine "E2" stateSel).selected = some "E2" ∧
      (handleSquareClick toyEngine "E2" stateSel).validMoves =
        getMovesForSquare toyEngine stateSel.game "E2") ∧
    handleSquareClick toyEngine "A5" stateNoSel = stateNoSel :=
  ⟨(click_selected_square_reselects toyEngine stateSel "A5" "E2" "P").1
      rfl rfl rfl rfl rfl rfl rfl
      (fun hK => absurd hK (by decide)),
   (click_selected_square_reselects toyEngine stateNoSel "A5" "x" "x").2
      rfl rfl⟩

/-- Handler `handleSquareClick` preserves the state-machine invariant. -/
theorem handleSquareClick_inv (E : Engine G) (sq : String) (s : AppState G)
    (h : StateInv E s) : StateInv E (handleSquareClick E sq s) := by
  obtain ⟨h0, hp, hs⟩ := h
  by_cases hg : (s.aiThinking || s.config.turn != "white" ||
      s.config.checkMate) = true
  · unfold handleSquareClick
    rw [if_pos hg]
    exact ⟨h0, hp, hs⟩
  · have hat : s.aiThinking = false := by
      rcases Bool.or_eq_false_iff.mp (Bool.or_eq_false_iff.mp
        (Bool.eq_false_iff.mpr hg)).1 with ⟨h1, -⟩
      exact h1
    have hpend : s.pending = none := by
      cases hq : s.pending with
      | none => rfl
      | some q => exact absurd (hp q hq).2 (by simp [hat])
    have hbase : ∀ e : HistoryEntry,
        ((s.history.take (s.currentPly + 1)) ++ [e])[0]? =
          some (startEntry E) :=
      fun _ => append_get_zero ((take_succ_get_zero _ _).trans h0)
    simp only [handleSquareClick]
    rw [if_neg hg]
    repeat' split
    all_goals
      first
      | exact ⟨h0, hp, hs⟩
      | exact ⟨h0, hp, fun _ => rfl⟩
      | exact ⟨h0, fun q hq => hp q hq, fun hsel => Option.noConfusion hsel⟩
      | exact ⟨hbase _, fun q hq => by
          have hq2 : s.pending = some q := hq
          rw [hpend] at hq2
          exact Option.noConfusion hq2, fun _ => rfl⟩
      | exact ⟨hbase _, fun q hq => by
          injection hq with hqq
          subst hqq
          exact ⟨hbase _, rfl⟩, fun _ => rfl⟩

/-- Completion `doAiMoveComplete` preserves the state-machine invariant. -/
theorem doAiMoveComplete_inv (E : Engine G) (s : AppState G)
    (h : StateInv E s) : StateInv E (doAiMoveComplete E s) := by
  obtain ⟨h0, hp, hs⟩ := h
  cases hq : s.pending with
  | none =>
    unfold doAiMoveComplete
    rw [hq]
    exact ⟨h0, hp, hs⟩
  | some q =>
    unfold doAiMoveComplete
    rw [hq]
    exact ⟨append_get_zero (hp q hq).1,
      fun r hr => Option.noConfusion hr, fun hn => hs hn⟩

/-- Handler `rollbackTo` preserves the state-machine invariant. -/
theorem rollbackTo_inv (E : Engine G) (ply : Nat) (s : AppState G)
    (h : StateInv E s) : StateInv E (rollbackTo E ply s) := by
  obtain ⟨h0, hp, hs⟩ := h
  cases hat : s.aiThinking with
  | true =>
    unfold rollbackTo
    rw [if_pos hat]
    exact ⟨h0, hp, hs⟩
  | false =>
    have hpend : s.pending = none := by
      cases hq : s.pending with
      | none => rfl
      | some q => exact absurd (hp q hq).2 (by simp [hat])
    simp only [rollbackTo]
    rw [if_neg (by simp [hat])]
    cases hentry : s.history[ply]? with
    | none => exact ⟨h0, hp, hs⟩
    | some entry =>
      repeat' split
      all_goals
        first
        | exact ⟨h0, hp, hs⟩
        | exact ⟨h0, fun q hq => by
            have hq2 : s.pending = some q := hq
            rw [hpend] at hq2
            exact Option.noConfusion hq2, fun _ => rfl⟩
        | exact ⟨h0, fun q hq => by
            injection hq with hqq
            subst hqq
            exact ⟨(take_succ_get_zero _ _).trans h0, rfl⟩, fun _ => rfl⟩

/-- Every event dispatch preserves the state-machine invariant. -/
theorem step_inv (E : Engine G) (e : Ev) (s : AppState G)
    (h : StateInv E s) : StateInv E (step E e s) := by
  obtain ⟨h0, hp, hs⟩ := h
  cases e with
  | click sq => exact handleSquareClick_inv E sq s ⟨h0, hp, hs⟩
  | aiDone => exact doAiMoveComplete_inv E s ⟨h0, hp, hs⟩
  | rollback ply => exact rollbackTo_inv E ply s ⟨h0, hp, hs⟩
  | reset =>
    simp only [step]
    split
    · exact ⟨h0, hp, hs⟩
    · next hna =>
      exact ⟨rfl, fun q hq => absurd (hp q hq).2 hna, fun _ => rfl⟩
  | setMode m =>
    simp only [step]
    split
    · exact ⟨h0, hp, hs⟩
    · exact ⟨h0, fun q hq => hp q hq, hs⟩
  | setLevel l =>
    simp only [step]
    split
    · exact ⟨h0, hp, hs⟩
    · exact ⟨h0, fun q hq => hp q hq, hs⟩
  | setCustom c =>
    simp only [step]
    split
    · exact ⟨h0, hp, hs⟩
    · exact ⟨h0, fun q hq => hp q hq, hs⟩

/-- The state-machine invariant holds in every reachable state. -/
theorem reach_inv (E : Engine G) (s : AppState G) (h : Reach E s) :
    StateInv E s := by
  induction h with
  | init => exact ⟨rfl, fun q hq => Option.noConfusion hq, fun _ => rfl⟩
  | step e h ih => exact step_inv E e _ ih

/-- C6.  In every reachable state, `history[0]` exists and is the canonical
start entry (label `Start`, the snapshot of `new Game().exportJson()`, no
associated last-move); `resetGame` restores the history to exactly this
single start entry with the pointer at 0. -/
theorem history_zero_start_invariant (E : Engine G) (s : AppState G)
    (h : Reach E s) :
    s.history[0]? = some (startEntry E) ∧
    (startEntry E).label = "Start" ∧
    (startEntry E).snapshot = startConfig E ∧
    (startEntry E).lastMove = none ∧
    (resetGame E s).history = [startEntry E] ∧
    (resetGame E s).currentPly = 0 :=
  ⟨(reach_inv E s h).1, rfl, rfl, rfl, rfl, rfl⟩

/-- Witness for C6: the invariant instantiated at the initial state of the
toy engine. -/
theorem history_zero_start_invariant_witness :
    (initState toyEngine).history[0]? = some (startEntry toyEngine) ∧
    (resetGame toyEngine (initState toyEngine)).history =
      [startEntry toyEngine] :=
  ⟨(history_zero_start_invariant toyEngine (initState toyEngine)
      Reach.init).1,
   (history_zero_start_invariant toyEngine (initState toyEngine)
      Reach.init).2.2.2.2.1⟩

/-- C9.  In every reachable state, an empty selection comes with an empty
legal-destination set, and every event dispatch that leaves the selection
empty also leaves the destination set empty. -/
theorem no_selection_empty_validMoves (E : Engine G) (s : AppState G)
    (h : Reach E s) :
    (s.selected = none → s.validMoves = []) ∧
    ∀ e, (step E e s).selected = none → (step E e s).validMoves = [] :=
  ⟨(reach_inv E s h).2.2, fun e => (reach_inv E _ (Reach.step e h)).2.2⟩

/-- Witness for C9: at the initial state nothing is selected and the
destination set is empty, also after a reset dispatch. -/
theorem no_selection_empty_validMoves_witness :
    (initState toyEngine).validMoves = [] ∧
    (step toyEngine Ev.reset (initState toyEngine)).validMoves = [] :=
  ⟨(no_selection_empty_validMoves toyEngine (initState toyEngine)
      Reach.init).1 rfl,
   (no_selection_empty_validMoves toyEngine (initState toyEngine)
      Reach.init).2 Ev.reset rfl⟩

/-- A click that does not apply a move (selection, re-selection,
deselection, or an ignored click) leaves the history and the ply pointer
untouched. -/
theorem handleSquareClick_not_applies (E : Engine G) (sq : String)
    (s : AppState G) (h : ¬clickApplies s sq) :
    (handleSquareClick E sq s).history = s.history ∧
    (handleSquareClick E sq s).currentPly = s.currentPly := by
  by_cases hg : (s.aiThinking || s.config.turn != "white" ||
      s.config.checkMate) = true
  · unfold handleSquareClick
    rw [if_pos hg]
    exact ⟨rfl, rfl⟩
  · have hg' : (s.aiThinking || s.config.turn != "white" ||
        s.config.checkMate) = false := Bool.eq_false_iff.mpr hg
    cases hsel : s.selected with
    | none =>
      simp only [handleSquareClick, hsel]
      rw [if_neg hg]
      repeat' split
      all_goals exact ⟨rfl, rfl⟩
    | some sel =>
      have hcont : s.validMoves.contains
          (effectiveTarget s.config s.validMoves sel sq) = false := by
        cases hc : s.validMoves.contains
            (effectiveTarget s.config s.validMoves sel sq)
        · rfl
        · exact absurd ⟨hg', sel, hsel, hc⟩ h
      simp only [effectiveTarget] at hcont
      simp only [handleSquareClick, hsel]
      rw [if_neg hg, if_neg (by rw [hcont]; exact Bool.false_ne_true)]
      repeat' split
      all_goals exact ⟨rfl, rfl⟩

/-- A sequence of non-applying clicks leaves the history and the ply pointer
untouched. -/
theorem applyClicks_preserves (E : Engine G) (sqs : List String)
    (s : AppState G) (h : nonApplyingClicks E sqs s) :
    (applyClicks E sqs s).history = s.history ∧
    (applyClicks E sqs s).currentPly = s.currentPly := by
  induction sqs generalizing s with
  | nil => exact ⟨rfl, rfl⟩
  | cons q qs ih =>
    obtain ⟨h1, h2⟩ := h
    have hq := handleSquareClick_not_applies E q s h1
    have hqs := ih (handleSquareClick E q s) h2
    exact ⟨hqs.1.trans hq.1, hqs.2.trans hq.2⟩

/-- After a rollback that found an entry, the history is untouched, the
pointer is the requested ply, and the scheduled AI callback (if any was newly
scheduled) captured exactly the truncated history prefix. -/
theorem rollbackTo_found_cases (E : Engine G) (p : Nat) (s : AppState G)
    (entry : HistoryEntry) (hai : s.aiThinking = false)
    (hentry : s.history[p]? = some entry) :
    (rollbackTo E p s).history = s.history ∧
    (rollbackTo E p s).currentPly = p ∧
    ((rollbackTo E p s).pending = s.pending ∨
      ∃ q, (rollbackTo E p s).pending = some q ∧
        q.prevHistory = s.history.take (p + 1)) := by
  simp only [rollbackTo]
  rw [if_neg (by simp [hai]), hentry]
  repeat' split
  all_goals
    first
    | exact ⟨rfl, rfl, Or.inl rfl⟩
    | exact ⟨rfl, rfl, Or.inr ⟨_, rfl, rfl⟩⟩
    | simp_all

/-- C2.  Rolling back to an in-range ply `p` (from a quiescent state) and
then making a new move — a human move through `handleSquareClick` (reached
after any sequence of non-applying clicks, such as the selection click), or
the AI reply that the rollback itself schedules when the restored snapshot
has Black to move — truncates the history to `history.take (p+1)` before
the new entry is appended: the result is `history.take (p+1) ++ [e]`, of
length `p+2`, so entries beyond index `p` of the prior branch are gone. -/
theorem rollback_then_move_truncates (E : Engine G) (s : AppState G)
    (p : Nat) (hp : p < s.history.length)
    (hai : s.aiThinking = false) (hpend : s.pending = none) :
    (∀ sqs sq, nonApplyingClicks E sqs (rollbackTo E p s) →
      clickApplies (applyClicks E sqs (rollbackTo E p s)) sq →
      (∃ e, (handleSquareClick E sq
          (applyClicks E sqs (rollbackTo E p s))).history =
        s.history.take (p + 1) ++ [e]) ∧
      (handleSquareClick E sq
          (applyClicks E sqs (rollbackTo E p s))).history.length = p + 2) ∧
    (∀ q, (rollbackTo E p s).pending = some q →
      (∃ e, (doAiMoveComplete E (rollbackTo E p s)).history =
          s.history.take (p + 1) ++ [e]) ∧
      (doAiMoveComplete E (rollbackTo E p s)).history.length = p + 2) := by
  have hlen : (s.history.take (p + 1)).length = p + 1 := by
    rw [List.length_take]
    omega
  obtain ⟨entry, hentry⟩ : ∃ entry, s.history[p]? = some entry :=
    ⟨s.history[p], List.getElem?_eq_getElem hp⟩
  obtain ⟨hH, hply, hpd⟩ := rollbackTo_found_cases E p s entry hai hentry
  constructor
  · intro sqs sq hna happ
    obtain ⟨hprH, hprP⟩ := applyClicks_preserves E sqs (rollbackTo E p s) hna
    obtain ⟨⟨e, he⟩, -⟩ := handleSquareClick_applies E sq _ happ
    rw [hprH, hH, hprP, hply] at he
    refine ⟨⟨e, he⟩, ?_⟩
    rw [he, List.length_append, hlen]
    rfl
  · intro q hq
    rcases hpd with hpd | ⟨r, hr, hprev⟩
    · rw [hpd, hpend] at hq
      exact Option.noConfusion hq
    · rw [hr] at hq
      injection hq with hqq
      subst hqq
      obtain ⟨⟨e, he⟩, -⟩ := doAiMoveComplete_history E _ r hr
      rw [hprev] at he
      refine ⟨⟨e, he⟩, ?_⟩
      rw [he, List.length_append, hlen]
      rfl

/-- Witness for C2, both move kinds.  Human: rolling back `stateW2` (three
entries) to ply 1 (White to move there), clicking E2 to select the pawn, then
clicking E4, applies a move and leaves the truncated two-entry prefix plus
the new entry — three entries, with old ply 2 gone.  AI: rolling back
`stateTwo` to ply 1 (Black to move there) schedules the AI reply, whose
completion likewise yields the truncated prefix plus one entry. -/
theorem rollback_then_move_truncates_witness :
    (1 < stateW2.history.length ∧
      (∃ e, (handleSquareClick toyEngine "E4"
          (applyClicks toyEngine ["E2"]
            (rollbackTo toyEngine 1 stateW2))).history =
        stateW2.history.take 2 ++ [e]) ∧
      (handleSquareClick toyEngine "E4"
          (applyClicks toyEngine ["E2"]
            (rollbackTo toyEngine 1 stateW2))).history.length = 3) ∧
    ((∃ e, (doAiMoveComplete toyEngine
        (rollbackTo toyEngine 1 stateTwo)).history =
      stateTwo.history.take 2 ++ [e]) ∧
    (doAiMoveComplete toyEngine
        (rollbackTo toyEngine 1 stateTwo)).history.length = 3) :=
  ⟨⟨by decide,
    (rollback_then_move_truncates toyEngine stateW2 1 (by decide) rfl
        rfl).1 ["E2"] "E4"
      ⟨fun hap => by
        obtain ⟨-, sel, hsel, -⟩ := hap
        exact Option.noConfusion hsel, trivial⟩
      ⟨rfl, "E2", rfl, by decide⟩⟩,
   (rollback_then_move_truncates toyEngine stateTwo 1 (by decide) rfl
      rfl).2
     { g := (), mode := "level", level := 3, cust := CUSTOM_DEFAULTS
       prevHistory := [startEntry toyEngine, blackEntry] } rfl⟩

end ChessFeApp
